import Mathlib

/-!
# Verification of the Airbnb record cleaning and feature-engineering pipeline

Shallow embedding of `src/lambda_1/airbnb-transform.py` (and the sort /
`sequential_id` post-processing stage of `src/lambda_1/aribnb-transform-arm64.py`).

Modelling conventions:
* A Python CSV `DictReader` row value may be a string or `None` (for short
  rows); we model it as `Option String` (`none` = Python `None`).
* Python floats are modelled as exact rationals; `round(x, 2)` is modelled as
  round-half-to-even at two decimals, which agrees with Python's `round` on
  every value that is exactly representable as a binary double (all values
  appearing in the concrete claims are).
* Python `\s` / `str.strip` whitespace is modelled by the six ASCII whitespace
  characters; Python additionally treats some further Unicode code points as
  whitespace, which no claim depends on.
* `float(...)` parsing is modelled for the finite decimal/scientific grammar;
  `inf`/`nan` literals and PEP-515 underscores are not modelled (no claim
  depends on them, and `int(float("inf"))` raises in Python so `clean_int`
  yields 0 either way).
-/

/-- A raw CSV cell as produced by `csv.DictReader`: a string, or Python
`None` when the physical row was shorter than the header. -/
abbrev PyStr := Option String

/-- The six ASCII whitespace characters matched by Python's `\s` and
stripped by `str.strip()` (Python also includes some Unicode whitespace). -/
def isPyWs (c : Char) : Bool :=
  c == ' ' || c == '\t' || c == '\n' || c == '\r' || c == '\x0b' || c == '\x0c'

/-- The character class of the regex `[\r\n\t]` used by `clean_text`. -/
def isRNT (c : Char) : Bool :=
  c == '\r' || c == '\n' || c == '\t'

/-- Replace every maximal run of characters satisfying `p` by a single space;
`prev` records whether the previous character was inside such a run.
This is `re.sub(r'[c]+', ' ', s)` for a character class `c`. -/
def collapseAux (p : Char → Bool) : Bool → List Char → List Char
  | _, [] => []
  | prev, c :: cs =>
    if p c then
      if prev then collapseAux p true cs else ' ' :: collapseAux p true cs
    else c :: collapseAux p false cs

/-- `re.sub(r'[c]+', ' ', s)` for the character class decided by `p`. -/
def collapseRuns (p : Char → Bool) (l : List Char) : List Char :=
  collapseAux p false l

/-- Python `str.strip()` on a character list. -/
def stripList (l : List Char) : List Char :=
  ((l.dropWhile isPyWs).reverse.dropWhile isPyWs).reverse

/-- Python `str.strip()`. -/
def pyStrip (s : String) : String :=
  String.mk (stripList s.data)

/-- Python slicing `l[:i]`, including the negative-index convention. -/
def pyTake (l : List Char) (i : Int) : List Char :=
  if i < 0 then l.take ((l.length : Int) + i).toNat else l.take i.toNat

/-- The normalization part of `clean_text`: collapse `[\r\n\t]+` runs to a
space, collapse whitespace runs to a space, strip. -/
def normalizeText (l : List Char) : List Char :=
  stripList (collapseRuns isPyWs (collapseRuns isRNT l))

/-- Body of `clean_text` on a character list: normalize, then truncate to
`max_length - 3` characters plus an ellipsis when a maximum is configured
and exceeded (source lines 250-261 of airbnb-transform.py). -/
def cleanTextList (l : List Char) (maxLength : Option Int) : List Char :=
  if l = [] then []
  else
    let t := normalizeText l
    match maxLength with
    | none => t
    | some m =>
      if m ≠ 0 ∧ (t.length : Int) > m then pyTake t (m - 3) ++ ['.', '.', '.']
      else t

/-- `clean_text(text, max_length)`: `None` and `''` are falsy and yield `''`. -/
def clean_text (v : PyStr) (maxLength : Option Int) : String :=
  match v with
  | none => ""
  | some s => String.mk (cleanTextList s.data maxLength)

/-- Numeric value of a decimal digit character. -/
def digitVal (c : Char) : ℕ := c.toNat - '0'.toNat

/-- Value of a string of decimal digits. -/
def digitsToNat (l : List Char) : ℕ :=
  l.foldl (fun a c => 10 * a + digitVal c) 0

/-- Parse a (non-scientific) decimal literal `digits[.digits]`, `.digits` or
`digits.`, as accepted by Python `float`; `none` on anything else (for
example two dots or no digit at all). -/
def parseDigitsDots (l : List Char) : Option ℚ :=
  match l.splitOn '.' with
  | [d] =>
    if d ≠ [] ∧ d.all (fun c => c.isDigit) then some ((digitsToNat d : ℚ))
    else none
  | [d, f] =>
    if (d ≠ [] ∨ f ≠ []) ∧ d.all (fun c => c.isDigit) ∧ f.all (fun c => c.isDigit) then
      some ((digitsToNat d : ℚ) + (digitsToNat f : ℚ) / (10 : ℚ) ^ f.length)
    else none
  | _ => none

/-- Split a leading `+`/`-` sign off a character list. -/
def parseSign : List Char → Int × List Char
  | '+' :: t => (1, t)
  | '-' :: t => (-1, t)
  | t => (1, t)

/-- Parse the exponent part of a float literal (after the `e`/`E`). -/
def parseExponent (l : List Char) : Option Int :=
  let p := parseSign l
  if p.2 ≠ [] ∧ p.2.all (fun c => c.isDigit) then
    some (p.1 * (digitsToNat p.2 : Int))
  else none

/-- `10 ^ e` as a rational, for an integer exponent. -/
def pow10 (e : Int) : ℚ :=
  if 0 ≤ e then (10 : ℚ) ^ e.toNat else 1 / (10 : ℚ) ^ (-e).toNat

/-- Python `float(s)` on the finite decimal/scientific grammar:
optional surrounding whitespace, optional sign, mantissa with at most one
dot and at least one digit, optional `e`/`E` exponent. -/
def pyFloat (s : String) : Option ℚ :=
  let t := stripList s.data
  let p := parseSign t
  match p.2.splitOnP (fun c => c == 'e' || c == 'E') with
  | [m] => (parseDigitsDots m).map (fun q => (p.1 : ℚ) * q)
  | [m, ex] => do
    let mant ← parseDigitsDots m
    let e ← parseExponent ex
    some ((p.1 : ℚ) * mant * pow10 e)
  | _ => none

/-- Truncation toward zero, the behaviour of Python `int(float)`. -/
def truncQ (q : ℚ) : Int :=
  if 0 ≤ q then ⌊q⌋ else ⌈q⌉

/-- Round-half-to-even to an integer, the behaviour of Python `round`. -/
def roundHalfEvenZ (q : ℚ) : Int :=
  let f := ⌊q⌋
  if q - f < 1 / 2 then f
  else if (1 : ℚ) / 2 < q - f then f + 1
  else if f % 2 = 0 then f else f + 1

/-- Python `round(q, 2)` on exact values: round-half-to-even at 2 decimals. -/
def round2 (q : ℚ) : ℚ :=
  (roundHalfEvenZ (q * 100) : ℚ) / 100

/-- `clean_price(price_str)` (source lines 263-274): falsy input yields `0.0`;
strip every character that is not a digit or dot; parse and round to two
decimals; any parse failure (for example two dots) yields `0.0`. -/
def clean_price (v : PyStr) : ℚ :=
  match v with
  | none => 0
  | some s =>
    if s = "" then 0
    else
      let cleaned := s.data.filter (fun c => c.isDigit || c == '.')
      if cleaned = [] then 0
      else
        match parseDigitsDots cleaned with
        | some q => round2 q
        | none => 0

/-- `clean_float(value)` (source lines 276-283). -/
def clean_float (v : PyStr) : ℚ :=
  match v with
  | none => 0
  | some s =>
    if s = "" ∨ s = "N/A" then 0
    else
      match pyFloat s with
      | some q => q
      | none => 0

/-- `clean_int(value)` (source lines 285-293): parse as float, truncate
toward zero; any failure yields `0`. -/
def clean_int (v : PyStr) : Int :=
  match v with
  | none => 0
  | some s =>
    if s = "" ∨ s = "N/A" then 0
    else
      match pyFloat s with
      | some q => truncQ q
      | none => 0

/-- `clean_percentage(percent_str)` (source lines 295-303): drop every `%`,
strip, parse as float; failures yield `0.0`. -/
def clean_percentage (v : PyStr) : ℚ :=
  match v with
  | none => 0
  | some s =>
    if s = "" ∨ s = "N/A" then 0
    else
      let t := String.mk (stripList (s.data.filter (fun c => !(c == '%'))))
      match pyFloat t with
      | some q => q
      | none => 0

/-- Python `str.lower()` (ASCII part). -/
def pyLower (s : String) : String :=
  String.mk (s.data.map Char.toLower)

/-- `convert_boolean(value)` (source lines 305-309); note `str(None)` is
`"None"`, which is not in the accepted set. -/
def convert_boolean (v : PyStr) : Int :=
  let s := match v with | none => "None" | some s => s
  if ["t", "true", "1", "yes"].contains (pyLower s) then 1 else 0

/-- Gregorian leap-year rule used by `datetime`. -/
def isLeapYear (y : ℕ) : Bool :=
  y % 4 == 0 && (y % 100 != 0 || y % 400 == 0)

/-- Number of days of a month, as validated by `datetime.strptime`. -/
def daysInMonth (y m : ℕ) : ℕ :=
  if m = 2 then (if isLeapYear y then 29 else 28)
  else if m ∈ [4, 6, 9, 11] then 30 else 31

/-- Zero-padded decimal rendering, as produced by `strftime` field widths. -/
def padNum (n w : ℕ) : String :=
  let s := toString n
  String.mk (List.replicate (w - s.length) '0') ++ s

/-- One `strptime`-then-`strftime('%Y-%m-%d')` attempt: three `sep`-separated
digit groups (year first, or month/day/year when `yearFirst` is false),
year of 1-4 digits and in `1..9999`, month and day of 1-2 digits validated
against the calendar. -/
def tryDateFormat (s : String) (sep : Char) (yearFirst : Bool) : Option String :=
  match s.data.splitOn sep with
  | [a, b, c] =>
    let ys := if yearFirst then a else c
    let ms := if yearFirst then b else a
    let ds := if yearFirst then c else b
    if ys ≠ [] ∧ ys.length ≤ 4 ∧ ys.all (fun x => x.isDigit) ∧
       ms ≠ [] ∧ ms.length ≤ 2 ∧ ms.all (fun x => x.isDigit) ∧
       ds ≠ [] ∧ ds.length ≤ 2 ∧ ds.all (fun x => x.isDigit) then
      let y := digitsToNat ys
      let m := digitsToNat ms
      let d := digitsToNat ds
      if 1 ≤ y ∧ 1 ≤ m ∧ m ≤ 12 ∧ 1 ≤ d ∧ d ≤ daysInMonth y m then
        some (padNum y 4 ++ "-" ++ padNum m 2 ++ "-" ++ padNum d 2)
      else none
    else none
  | _ => none

/-- `clean_date(date_str)` (source lines 311-325): try `%Y/%m/%d`,
`%Y-%m-%d`, `%m/%d/%Y` in order; re-emit `%Y-%m-%d` on the first success;
return the original string when none matches. -/
def clean_date (v : PyStr) : String :=
  match v with
  | none => ""
  | some s =>
    if s = "" then ""
    else
      match tryDateFormat s '/' true with
      | some r => r
      | none =>
        match tryDateFormat s '-' true with
        | some r => r
        | none =>
          match tryDateFormat s '/' false with
          | some r => r
          | none => s

/-- Membership in the character set of Python `strip('{}')`. -/
def isBrace (c : Char) : Bool := c == '{' || c == '}'

/-- Python `s.strip('{}')`: drop leading and trailing brace characters. -/
def stripBraceChars (l : List Char) : List Char :=
  ((l.dropWhile isBrace).reverse.dropWhile isBrace).reverse

/-- `clean_amenities(amenities_str)` (source lines 327-339): strip enclosing
braces, split the remainder on commas, strip each item, return the number
of items of that list (note: `len` counts empty items too). -/
def clean_amenities (v : PyStr) : ℕ :=
  match v with
  | none => 0
  | some s =>
    if s = "" then 0
    else
      let cleaned := stripBraceChars s.data
      if cleaned = [] then 0
      else ((cleaned.splitOn ',').map (fun i => stripList i)).length

/-- Python substring containment `pat in l`. -/
def hasSubstring (pat : List Char) : List Char → Bool
  | [] => pat.isEmpty
  | c :: cs => pat.isPrefixOf (c :: cs) || hasSubstring pat cs

/-- `simplify_room_type(room_type)` (source lines 341-352). -/
def simplify_room_type (v : PyStr) : String :=
  match v with
  | none => "Other"
  | some s =>
    if s = "" then "Other"
    else
      let low := s.data.map Char.toLower
      if hasSubstring "entire".data low || hasSubstring "apt".data low then "Entire"
      else if hasSubstring "private".data low then "Private"
      else if hasSubstring "shared".data low then "Shared"
      else "Other"

/-- `categorize_price(price)` (source lines 356-367). -/
def categorize_price (price : ℚ) : String :=
  if price ≤ 0 then "unknown"
  else if price < 75 then "budget"
  else if price < 150 then "moderate"
  else if price < 300 then "expensive"
  else "luxury"

/-- `categorize_reviews(count)` (source lines 369-380). -/
def categorize_reviews (count : Int) : String :=
  if count = 0 then "no_reviews"
  else if count < 5 then "few"
  else if count < 20 then "moderate"
  else if count < 50 then "many"
  else "very_popular"

/-- `categorize_host(is_superhost, response_rate)` (source lines 382-391);
`is_superhost` is the 0/1 of `convert_boolean`, tested for truthiness. -/
def categorize_host (is_superhost : Int) (response_rate : ℚ) : String :=
  if is_superhost ≠ 0 then "superhost"
  else if 90 ≤ response_rate then "responsive"
  else if 50 ≤ response_rate then "moderate"
  else "low_response"

/-- `categorize_availability(days)` (source lines 393-404). -/
def categorize_availability (days : Int) : String :=
  if days = 0 then "not_available"
  else if days < 30 then "rarely_available"
  else if days < 180 then "occasionally_available"
  else if days < 300 then "mostly_available"
  else "highly_available"

/-- A raw CSV row: an association list from column name to cell value
(`csv.DictReader` yields a dict; a key bound to `none` models a short row). -/
abbrev RawRecord := List (String × PyStr)

/-- `row.get(k, d)`: the stored value when the key is present (even when it
is Python `None`), otherwise the string default `d`. -/
def rowGet (row : RawRecord) (k : String) (d : String) : PyStr :=
  match row.lookup k with
  | some v => v
  | none => some d

/-- The fully assembled output record of one accepted row
(source lines 64-155 of airbnb-transform.py). Fields that the source stores
without normalization keep type `PyStr`; normalized fields are typed. -/
structure CleanedRecord where
  id : String
  listing_url : PyStr
  last_scraped : PyStr
  name : String
  description : String
  property_type : PyStr
  room_type : PyStr
  host_id : String
  host_name : String
  host_since : String
  host_response_time : PyStr
  host_response_rate : ℚ
  host_acceptance_rate : ℚ
  host_is_superhost : Int
  host_listings_count : Int
  host_identity_verified : Int
  street : String
  neighbourhood : String
  neighbourhood_cleansed : String
  neighbourhood_group_cleansed : String
  city : String
  state : String
  zipcode : String
  latitude : ℚ
  longitude : ℚ
  is_location_exact : Int
  accommodates : Int
  bathrooms : ℚ
  bedrooms : Int
  beds : Int
  bed_type : PyStr
  amenities : ℕ
  square_feet : Int
  price : ℚ
  weekly_price : ℚ
  monthly_price : ℚ
  security_deposit : ℚ
  cleaning_fee : ℚ
  guests_included : Int
  extra_people : ℚ
  minimum_nights : Int
  maximum_nights : Int
  instant_bookable : Int
  cancellation_policy : PyStr
  has_availability : Int
  availability_30 : Int
  availability_60 : Int
  availability_90 : Int
  availability_365 : Int
  number_of_reviews : Int
  first_review : String
  last_review : String
  review_scores_rating : ℚ
  review_scores_accuracy : ℚ
  review_scores_cleanliness : ℚ
  review_scores_checkin : ℚ
  review_scores_communication : ℚ
  review_scores_location : ℚ
  review_scores_value : ℚ
  reviews_per_month : ℚ
  price_category : String
  review_category : String
  host_category : String
  availability_category : String
  room_type_simplified : String
  is_professional_host : Int
  has_cleaning_fee : Int
  price_per_guest : ℚ
  deriving DecidableEq, Inhabited

/-- The dict literal of source lines 64-155, given the already-computed
stripped id, the validated price, and the seven values that were observed
to be non-`None` strings (they are consumed through `.strip()`). -/
def mkRecord (row : RawRecord) (idS : String) (price : ℚ)
    (hostIdV nbV nbcV nbgV cityV stateV zipV : String) : CleanedRecord :=
  { id := idS
    listing_url := rowGet row "listing_url" ""
    last_scraped := rowGet row "last_scraped" ""
    name := clean_text (rowGet row "name" "") (some 200)
    description := clean_text (rowGet row "description" "") (some 1000)
    property_type := rowGet row "property_type" "Unknown"
    room_type := rowGet row "room_type" "Unknown"
    host_id := pyStrip hostIdV
    host_name := clean_text (rowGet row "host_name" "") (some 100)
    host_since := clean_date (rowGet row "host_since" "")
    host_response_time := rowGet row "host_response_time" "N/A"
    host_response_rate := clean_percentage (rowGet row "host_response_rate" "")
    host_acceptance_rate := clean_percentage (rowGet row "host_acceptance_rate" "")
    host_is_superhost := convert_boolean (rowGet row "host_is_superhost" "f")
    host_listings_count := clean_int (rowGet row "host_listings_count" "0")
    host_identity_verified := convert_boolean (rowGet row "host_identity_verified" "f")
    street := clean_text (rowGet row "street" "") (some 200)
    neighbourhood := pyStrip nbV
    neighbourhood_cleansed := pyStrip nbcV
    neighbourhood_group_cleansed := pyStrip nbgV
    city := pyStrip cityV
    state := pyStrip stateV
    zipcode := pyStrip zipV
    latitude := clean_float (rowGet row "latitude" "0")
    longitude := clean_float (rowGet row "longitude" "0")
    is_location_exact := convert_boolean (rowGet row "is_location_exact" "f")
    accommodates := clean_int (rowGet row "accommodates" "0")
    bathrooms := clean_float (rowGet row "bathrooms" "0")
    bedrooms := clean_int (rowGet row "bedrooms" "0")
    beds := clean_int (rowGet row "beds" "0")
    bed_type := rowGet row "bed_type" "Unknown"
    amenities := clean_amenities (rowGet row "amenities" "\x7b\x7d")
    square_feet := clean_int (rowGet row "square_feet" "0")
    price := price
    weekly_price := clean_price (rowGet row "weekly_price" "0")
    monthly_price := clean_price (rowGet row "monthly_price" "0")
    security_deposit := clean_price (rowGet row "security_deposit" "0")
    cleaning_fee := clean_price (rowGet row "cleaning_fee" "0")
    guests_included := clean_int (rowGet row "guests_included" "1")
    extra_people := clean_price (rowGet row "extra_people" "0")
    minimum_nights := clean_int (rowGet row "minimum_nights" "1")
    maximum_nights := clean_int (rowGet row "maximum_nights" "365")
    instant_bookable := convert_boolean (rowGet row "instant_bookable" "f")
    cancellation_policy := rowGet row "cancellation_policy" "flexible"
    has_availability := convert_boolean (rowGet row "has_availability" "t")
    availability_30 := clean_int (rowGet row "availability_30" "0")
    availability_60 := clean_int (rowGet row "availability_60" "0")
    availability_90 := clean_int (rowGet row "availability_90" "0")
    availability_365 := clean_int (rowGet row "availability_365" "0")
    number_of_reviews := clean_int (rowGet row "number_of_reviews" "0")
    first_review := clean_date (rowGet row "first_review" "")
    last_review := clean_date (rowGet row "last_review" "")
    review_scores_rating := clean_float (rowGet row "review_scores_rating" "0")
    review_scores_accuracy := clean_float (rowGet row "review_scores_accuracy" "0")
    review_scores_cleanliness := clean_float (rowGet row "review_scores_cleanliness" "0")
    review_scores_checkin := clean_float (rowGet row "review_scores_checkin" "0")
    review_scores_communication := clean_float (rowGet row "review_scores_communication" "0")
    review_scores_location := clean_float (rowGet row "review_scores_location" "0")
    review_scores_value := clean_float (rowGet row "review_scores_value" "0")
    reviews_per_month := clean_float (rowGet row "reviews_per_month" "0")
    price_category := categorize_price price
    review_category := categorize_reviews (clean_int (rowGet row "number_of_reviews" "0"))
    host_category := categorize_host (convert_boolean (rowGet row "host_is_superhost" "f"))
      (clean_percentage (rowGet row "host_response_rate" ""))
    availability_category := categorize_availability (clean_int (rowGet row "availability_365" "0"))
    room_type_simplified := simplify_room_type (rowGet row "room_type" "")
    is_professional_host := if 3 < clean_int (rowGet row "host_listings_count" "0") then 1 else 0
    has_cleaning_fee := if 0 < clean_price (rowGet row "cleaning_fee" "0") then 1 else 0
    price_per_guest := round2 (price / ((max (clean_int (rowGet row "accommodates" "1")) 1 : Int) : ℚ)) }

/-- Outcome of processing one raw row in the loop of source lines 47-163:
accepted, silently skipped as a blank row, rejected by the price bound,
rejected by the empty-id check, or dropped by a caught exception. -/
inductive RowOutcome where
  | accepted (r : CleanedRecord)
  | skippedBlank
  | rejectedPrice
  | rejectedId
  | errored
  deriving DecidableEq

/-- Price check and id check of source lines 54-61, then assembly.
Assembly raises (AttributeError on `None.strip()`) exactly when one of the
seven `.strip()`-consumed cells is present with value `None`; the dict
literal is evaluated in order, and the outcome only depends on whether some
such cell raises. -/
def afterBlankCheck (row : RawRecord) (idS : String) : RowOutcome :=
  let price := clean_price (rowGet row "price" "0")
  if price ≤ 0 ∨ 10000 < price then .rejectedPrice
  else if idS = "" then .rejectedId
  else
    match rowGet row "host_id" "" with
    | none => .errored
    | some hostIdV =>
      match rowGet row "neighbourhood" "" with
      | none => .errored
      | some nbV =>
        match rowGet row "neighbourhood_cleansed" "" with
        | none => .errored
        | some nbcV =>
          match rowGet row "neighbourhood_group_cleansed" "" with
          | none => .errored
          | some nbgV =>
            match rowGet row "city" "Seattle" with
            | none => .errored
            | some cityV =>
              match rowGet row "state" "WA" with
              | none => .errored
              | some stateV =>
                match rowGet row "zipcode" "" with
                | none => .errored
                | some zipV =>
                  .accepted (mkRecord row idS price hostIdV nbV nbcV nbgV cityV stateV zipV)

/-- One iteration of the row loop (source lines 47-163). Mirrors Python
evaluation order: `row.get('id','').strip()` raises on `None`; the
short-circuit `and` only evaluates `name` when the stripped id is empty. -/
def transformRow (row : RawRecord) : RowOutcome :=
  match rowGet row "id" "" with
  | none => .errored
  | some idRaw =>
    let idS := pyStrip idRaw
    if idS = "" then
      match rowGet row "name" "" with
      | none => .errored
      | some nameRaw =>
        if pyStrip nameRaw = "" then .skippedBlank
        else afterBlankCheck row idS
    else afterBlankCheck row idS

/-- Accepted records (in input order) and the error count of the row loop. -/
def processRows : List RawRecord → List CleanedRecord × ℕ
  | [] => ([], 0)
  | row :: rest =>
    let p := processRows rest
    match transformRow row with
    | .accepted r => (r :: p.1, p.2)
    | .errored => (p.1, p.2 + 1)
    | _ => p

/-- The aggregate of one pipeline invocation: the accepted records and the
metrics of source lines 165-167 (`removed_count = raw_count - clean_count`
is computed as a difference, it is not an independently tallied counter). -/
structure PipelineResult where
  cleaned : List CleanedRecord
  raw_count : ℕ
  clean_count : ℕ
  removed_count : Int
  error_count : ℕ
  deriving DecidableEq

/-- The cleaning/transformation pass of `lambda_handler` plus its metrics. -/
def runPipeline (rows : List RawRecord) : PipelineResult :=
  let p := processRows rows
  { cleaned := p.1
    raw_count := rows.length
    clean_count := p.1.length
    removed_count := (rows.length : Int) - (p.1.length : Int)
    error_count := p.2 }

/-- Whether the outcome is a silent pre-validation rejection (blank row,
out-of-bounds price, or empty id) - the rows the spec calls
"rejected-by-validation". -/
def isRejected : RowOutcome → Bool
  | .skippedBlank => true
  | .rejectedPrice => true
  | .rejectedId => true
  | _ => false

/-- Result of `lambda_handler` as far as it is data-dependent: the pipeline
result plus the timestamp-derived output object key of source lines
172-175. `now` is the formatted wall-clock reading, the only
environment-dependent input of the save stage. -/
structure HandlerOutput where
  result : PipelineResult
  outputKey : Option String
  deriving DecidableEq

/-- `lambda_handler` on already-parsed rows, with the wall clock passed in
explicitly: the transformation pass never reads it; only the output
filename does (source lines 174-175). -/
def runHandler (rows : List RawRecord) (now : String) : HandlerOutput :=
  let r := runPipeline rows
  { result := r
    outputKey :=
      if r.cleaned.isEmpty then none
      else some ("clean_listings_" ++ now ++ ".csv") }

/-- Sort key of the arm64 variant's post-processing stage (source line 465
of aribnb-transform-arm64.py): `int(x['id']) if x['id'].isdigit() else 0`. -/
def sortKey (r : CleanedRecord) : ℕ :=
  if r.id.data ≠ [] ∧ r.id.data.all (fun c => c.isDigit) then digitsToNat r.id.data
  else 0

/-- `cleaned_rows.sort(key=...)`: Python's sort is a stable sort by the key;
a stable sort's output is uniquely determined, so `mergeSort` (stable, by
`List.sublist_mergeSort`) computes the same list. -/
def sortStage (l : List CleanedRecord) : List CleanedRecord :=
  l.mergeSort (fun a b => sortKey a ≤ sortKey b)

/-- The 1-based `sequential_id` assignment of source lines 466-467 of the
arm64 variant, modelled as pairing each record with its id. -/
def assignSeq (l : List CleanedRecord) : List (CleanedRecord × ℕ) :=
  l.enum.map (fun p => (p.2, p.1 + 1))

/-- The whole optional post-processing stage: sort by numeric id, then
assign 1-based sequential ids. -/
def postProcess (l : List CleanedRecord) : List (CleanedRecord × ℕ) :=
  assignSeq (sortStage l)

/-- The `sequential_id` components of a run of records are consecutive
(each one is its predecessor plus one). -/
def consecutiveSeq : List (CleanedRecord × ℕ) → Bool
  | [] => true
  | [_] => true
  | a :: b :: t => (b.2 == a.2 + 1) && consecutiveSeq (b :: t)

/-- Row 1 of the end-to-end test of the spec (§8): accepted. -/
def c4row1 : RawRecord :=
  [("id", some "10"), ("price", some "$1,200.50"),
   ("accommodates", some "4"), ("host_listings_count", some "5")]

/-- Row 2 of the end-to-end test: rejected by the price bound. -/
def c4row2 : RawRecord := [("id", some "11"), ("price", some "0")]

/-- Row 3 of the end-to-end test: rejected for an empty id. -/
def c4row3 : RawRecord := [("id", some ""), ("price", some "50")]

/-- The 3-row input of the end-to-end test. -/
def c4rows : List RawRecord := [c4row1, c4row2, c4row3]

/-- A minimal row that the pipeline accepts. -/
def okRow : RawRecord := [("id", some "7"), ("price", some "50")]

/-- A row rejected by pre-validation (price 0). -/
def rejRow : RawRecord := [("id", some "11"), ("price", some "0")]

/-- A row that passes pre-validation but whose assembly raises
(`None.strip()` on `host_id`), so it is counted as an error. -/
def errRow : RawRecord :=
  [("id", some "7"), ("price", some "50"), ("host_id", none)]

/-! ## Helper lemmas about whitespace normalization -/

/-- The adjacency relation "not two consecutive characters of class `p`". -/
abbrev noPairOf (p : Char → Bool) (a b : Char) : Prop :=
  ¬(p a = true ∧ p b = true)

/-- The invariant established by `normalizeText`-style cleaning: every
whitespace character is a plain space, no two adjacent whitespace
characters, and no leading or trailing whitespace. -/
structure TextNormalized (l : List Char) : Prop where
  wsSingle : ∀ c ∈ l, isPyWs c = true → c = ' '
  wsNoAdj : l.Chain' (noPairOf isPyWs)
  headNot : ∀ c, l.head? = some c → isPyWs c = false
  lastNot : ∀ c, l.getLast? = some c → isPyWs c = false

theorem mem_collapseAux {p : Char → Bool} :
    ∀ {l : List Char} {b : Bool} {c : Char}, c ∈ collapseAux p b l →
      c = ' ' ∨ (c ∈ l ∧ p c = false) := by
  intro l
  induction l with
  | nil => intro b c h; simp [collapseAux] at h
  | cons a t ih =>
    intro b c h
    cases hp : p a
    · simp only [collapseAux, hp, Bool.false_eq_true, if_false, List.mem_cons] at h
      rcases h with rfl | h
      · exact Or.inr ⟨List.mem_cons_self _ _, hp⟩
      · rcases ih h with h1 | ⟨h2, h3⟩
        · exact Or.inl h1
        · exact Or.inr ⟨List.mem_cons_of_mem _ h2, h3⟩
    · cases b
      · have he : collapseAux p false (a :: t) = ' ' :: collapseAux p true t := by
          simp [collapseAux, hp]
        rw [he, List.mem_cons] at h
        rcases h with rfl | h
        · exact Or.inl rfl
        · rcases ih h with h1 | ⟨h2, h3⟩
          · exact Or.inl h1
          · exact Or.inr ⟨List.mem_cons_of_mem _ h2, h3⟩
      · have he : collapseAux p true (a :: t) = collapseAux p true t := by
          simp [collapseAux, hp]
        rw [he] at h
        rcases ih h with h1 | ⟨h2, h3⟩
        · exact Or.inl h1
        · exact Or.inr ⟨List.mem_cons_of_mem _ h2, h3⟩

theorem collapseAux_eq_self {p : Char → Bool} :
    ∀ {l : List Char} {b : Bool}, (∀ c ∈ l, p c = false) → collapseAux p b l = l := by
  intro l
  induction l with
  | nil => intro b _; rfl
  | cons a t ih =>
    intro b h
    have ha : p a = false := h a (List.mem_cons_self _ _)
    simp only [collapseAux, ha, Bool.false_eq_true, if_false]
    exact congrArg (a :: ·) (ih fun c hc => h c (List.mem_cons_of_mem _ hc))

theorem collapseAux_true_of_head {p : Char → Bool} {l : List Char}
    (h : ∀ c, l.head? = some c → p c = false) :
    collapseAux p true l = collapseAux p false l := by
  cases l with
  | nil => rfl
  | cons a t =>
    have ha : p a = false := h a rfl
    simp [collapseAux, ha]

theorem collapseAux_false_eq_self {p : Char → Bool} :
    ∀ {l : List Char}, (∀ c ∈ l, p c = true → c = ' ') →
      l.Chain' (noPairOf p) → collapseAux p false l = l := by
  intro l
  induction l with
  | nil => intro _ _; rfl
  | cons a t ih =>
    intro hs hc
    rcases List.chain'_cons'.mp hc with ⟨hhead, htail⟩
    by_cases hp : p a
    · have ha : a = ' ' := hs a (List.mem_cons_self _ _) hp
      have hne : ∀ c, t.head? = some c → p c = false := by
        intro c hcs
        have h2 := hhead c (by simp [hcs])
        simp [noPairOf, hp] at h2
        exact h2
      have he : collapseAux p false (a :: t) = ' ' :: collapseAux p true t := by
        simp [collapseAux, hp]
      rw [he, collapseAux_true_of_head hne,
        ih (fun c hm hpc => hs c (List.mem_cons_of_mem _ hm) hpc) htail, ha]
    · have hpf : p a = false := by simpa using hp
      have he : collapseAux p false (a :: t) = a :: collapseAux p false t := by
        simp [collapseAux, hpf]
      rw [he, ih (fun c hm hpc => hs c (List.mem_cons_of_mem _ hm) hpc) htail]

theorem chain'_collapseAux {p : Char → Bool} :
    ∀ {l : List Char} {b : Bool},
      (collapseAux p b l).Chain' (noPairOf p) ∧
      (b = true → ∀ c, (collapseAux p b l).head? = some c → p c = false) := by
  intro l
  induction l with
  | nil => intro b; exact ⟨List.chain'_nil, by intro _ c h; simp [collapseAux] at h⟩
  | cons a t ih =>
    intro b
    by_cases hp : p a
    · rcases b with _ | _
      · simp only [collapseAux, hp, if_true, Bool.false_eq_true, if_false]
        refine ⟨List.chain'_cons'.mpr ⟨?_, (ih (b := true)).1⟩, by intro h; cases h⟩
        intro y hy
        have := (ih (b := true)).2 rfl y hy
        simp [noPairOf, this]
      · simp only [collapseAux, hp, if_true]
        exact ⟨(ih (b := true)).1, fun _ => (ih (b := true)).2 rfl⟩
    · simp only [collapseAux, hp, Bool.false_eq_true, if_false]
      refine ⟨List.chain'_cons'.mpr ⟨?_, (ih (b := false)).1⟩, ?_⟩
      · intro y _; simp [noPairOf, hp]
      · intro _ c h
        simp only [List.head?_cons, Option.some.injEq] at h
        subst h; simpa using hp

theorem mem_stripList {l : List Char} {c : Char} (h : c ∈ stripList l) : c ∈ l := by
  simp only [stripList, List.mem_reverse] at h
  have h1 := (List.dropWhile_sublist (l := (l.dropWhile isPyWs).reverse) isPyWs).mem h
  simp only [List.mem_reverse] at h1
  exact (List.dropWhile_sublist isPyWs).mem h1

theorem head?_stripList_not {l : List Char} :
    ∀ c, (stripList l).head? = some c → isPyWs c = false := by
  intro c h
  simp only [stripList, List.head?_reverse] at h
  obtain ⟨w, hw⟩ := List.dropWhile_suffix (l := (l.dropWhile isPyWs).reverse) isPyWs
  have hz : ((l.dropWhile isPyWs).reverse).getLast? = some c := by
    rw [← hw, List.getLast?_append, h]; rfl
  rw [List.getLast?_reverse] at hz
  have hh := List.head?_dropWhile_not isPyWs l
  rw [hz] at hh
  exact hh

theorem getLast?_stripList_not {l : List Char} :
    ∀ c, (stripList l).getLast? = some c → isPyWs c = false := by
  intro c h
  simp only [stripList, List.getLast?_reverse] at h
  have hh := List.head?_dropWhile_not isPyWs ((l.dropWhile isPyWs).reverse)
  rw [h] at hh
  exact hh

theorem dropWhile_eq_self_of_head {p : α → Bool} {l : List α}
    (h : ∀ c, l.head? = some c → p c = false) : l.dropWhile p = l := by
  cases l with
  | nil => rfl
  | cons a t => simp [List.dropWhile_cons, h a rfl]

theorem stripList_eq_self {l : List Char}
    (h1 : ∀ c, l.head? = some c → isPyWs c = false)
    (h2 : ∀ c, l.getLast? = some c → isPyWs c = false) : stripList l = l := by
  unfold stripList
  rw [dropWhile_eq_self_of_head h1]
  rw [dropWhile_eq_self_of_head (by simpa using h2)]
  exact List.reverse_reverse l

theorem rnt_imp_ws {c : Char} (h : isRNT c = true) : isPyWs c = true := by
  simp only [isRNT, Bool.or_eq_true, beq_iff_eq] at h
  rcases h with (rfl | rfl) | rfl <;> decide

theorem chain'_noPair_reverse {p : Char → Bool} {l : List Char}
    (h : l.Chain' (noPairOf p)) : l.reverse.Chain' (noPairOf p) :=
  List.chain'_reverse.mpr (List.Chain'.imp (fun _ _ hab hc => hab ⟨hc.2, hc.1⟩) h)

theorem chain'_noPair_stripList {p : Char → Bool} {l : List Char}
    (h : l.Chain' (noPairOf p)) : (stripList l).Chain' (noPairOf p) := by
  unfold stripList
  exact chain'_noPair_reverse
    ((chain'_noPair_reverse (h.suffix (List.dropWhile_suffix _))).suffix
      (List.dropWhile_suffix _))

theorem textNormalized_normalizeText (l : List Char) :
    TextNormalized (normalizeText l) := by
  refine ⟨?_, ?_, ?_, ?_⟩
  · intro c hc hws
    have hmem := mem_stripList hc
    rcases mem_collapseAux hmem with h1 | ⟨_, h3⟩
    · exact h1
    · rw [h3] at hws; cases hws
  · exact chain'_noPair_stripList (chain'_collapseAux (b := false)).1
  · exact head?_stripList_not
  · exact getLast?_stripList_not

theorem normalizeText_eq_self {l : List Char} (h : TextNormalized l) :
    normalizeText l = l := by
  have h1 : ∀ c ∈ l, isRNT c = false := by
    intro c hc
    cases hr : isRNT c
    · rfl
    · have hw := rnt_imp_ws hr
      have hsp := h.wsSingle c hc hw
      rw [hsp] at hr; cases hr
  unfold normalizeText collapseRuns
  rw [collapseAux_eq_self h1, collapseAux_false_eq_self h.wsSingle h.wsNoAdj,
    stripList_eq_self h.headNot h.lastNot]

theorem head?_take_eq {k : ℕ} {l : List α} {a : α}
    (h : (l.take k).head? = some a) : l.head? = some a := by
  cases l with
  | nil => simp at h
  | cons x t =>
    cases k with
    | zero => simp at h
    | succ n => simpa using h

theorem textNormalized_truncAppend {t : List Char} {k : ℕ}
    (h : TextNormalized t) : TextNormalized (t.take k ++ ['.', '.', '.']) := by
  refine ⟨?_, ?_, ?_, ?_⟩
  · intro c hc hws
    rcases List.mem_append.mp hc with h1 | h2
    · exact h.wsSingle c ((List.take_sublist _ _).mem h1) hws
    · have : c = '.' := by simpa using h2
      rw [this] at hws; cases hws
  · refine List.chain'_append.mpr ⟨h.wsNoAdj.take k, ?_, ?_⟩
    · rw [List.chain'_cons, List.chain'_cons]
      exact ⟨by decide, by decide, List.chain'_singleton _⟩
    · intro x _ y hy
      have hy' : '.' = y := by simpa using hy
      intro hc
      apply absurd hc.2
      rw [← hy']; decide
  · intro c hc
    rw [List.head?_append] at hc
    cases ht : (t.take k).head? with
    | none =>
      rw [ht] at hc
      have : '.' = c := by simpa using hc
      rw [← this]; decide
    | some a =>
      rw [ht] at hc
      have : a = c := by simpa using hc
      rw [← this]
      exact h.headNot a (head?_take_eq ht)
  · intro c hc
    rw [List.getLast?_append] at hc
    have : '.' = c := by simpa using hc
    rw [← this]; decide

theorem pyTake_nonneg {l : List Char} {i : Int} (h : 0 ≤ i) :
    pyTake l i = l.take i.toNat := by
  simp [pyTake, not_lt.mpr h]

theorem trunc_length {t : List Char} {m : Int} (hm : 3 ≤ m)
    (hlen : m < (t.length : Int)) :
    ((pyTake t (m - 3) ++ ['.', '.', '.']).length : Int) = m := by
  rw [pyTake_nonneg (by omega)]
  have h1 : ((m - 3).toNat : Int) = m - 3 := Int.toNat_of_nonneg (by omega)
  have h2 : (m - 3).toNat ≤ t.length := by omega
  simp only [List.length_append, List.length_take, min_eq_left h2,
    List.length_cons, List.length_nil]
  omega

theorem cleanTextList_of_ne_nil {l : List Char} (hl : l ≠ []) (m : Int) :
    cleanTextList l (some m) =
      if m ≠ 0 ∧ ((normalizeText l).length : Int) > m then
        pyTake (normalizeText l) (m - 3) ++ ['.', '.', '.']
      else normalizeText l := by
  simp [cleanTextList, hl]

theorem cleanTextList_spec (l : List Char) (m : Int) (hm : 3 ≤ m) :
    ((cleanTextList l (some m)).length : Int) ≤ m ∧
    (((normalizeText l).length : Int) > m →
      ((cleanTextList l (some m)).length : Int) = m) ∧
    cleanTextList (cleanTextList l (some m)) (some m) = cleanTextList l (some m) := by
  by_cases hl : l = []
  · subst hl
    have h0 : cleanTextList ([] : List Char) (some m) = [] := by simp [cleanTextList]
    have hnorm : normalizeText ([] : List Char) = [] := rfl
    refine ⟨by simp [h0]; omega, by simp [hnorm]; omega, by simp [h0]⟩
  · have hN := textNormalized_normalizeText l
    rw [cleanTextList_of_ne_nil hl]
    by_cases hgt : ((normalizeText l).length : Int) > m
    · rw [if_pos ⟨by omega, hgt⟩]
      have hlen := trunc_length hm hgt
      refine ⟨le_of_eq hlen, fun _ => hlen, ?_⟩
      have hrne : (pyTake (normalizeText l) (m - 3) ++ ['.', '.', '.']) ≠ [] := by
        simp
      rw [cleanTextList_of_ne_nil hrne]
      have hrN : TextNormalized (pyTake (normalizeText l) (m - 3) ++ ['.', '.', '.']) := by
        rw [pyTake_nonneg (by omega : (0 : Int) ≤ m - 3)]
        exact textNormalized_truncAppend hN
      rw [normalizeText_eq_self hrN]
      rw [if_neg]
      intro hc
      omega
    · rw [if_neg (fun hc => hgt hc.2)]
      refine ⟨by omega, fun hc => absurd hc hgt, ?_⟩
      by_cases htn : normalizeText l = []
      · rw [htn]; simp [cleanTextList]
      · rw [cleanTextList_of_ne_nil htn, normalizeText_eq_self hN,
          if_neg (fun hc => hgt hc.2)]

theorem stripList_idem (l : List Char) : stripList (stripList l) = stripList l :=
  stripList_eq_self head?_stripList_not getLast?_stripList_not

theorem pyStrip_idem (s : String) : pyStrip (pyStrip s) = pyStrip s := by
  unfold pyStrip
  rw [show (String.mk (stripList s.data)).data = stripList s.data from rfl,
    stripList_idem]

/-! ## Helper lemmas about the pipeline driver -/

theorem transformRow_accepted_shape {row : RawRecord} {r : CleanedRecord}
    (h : transformRow row = .accepted r) :
    ∃ idRaw hostIdV nbV nbcV nbgV cityV stateV zipV,
      rowGet row "id" "" = some idRaw ∧
      pyStrip idRaw ≠ "" ∧
      ¬(clean_price (rowGet row "price" "0") ≤ 0 ∨
        10000 < clean_price (rowGet row "price" "0")) ∧
      r = mkRecord row (pyStrip idRaw) (clean_price (rowGet row "price" "0"))
            hostIdV nbV nbcV nbgV cityV stateV zipV := by
  unfold transformRow at h
  rcases hg : rowGet row "id" "" with _ | idRaw
  · rw [hg] at h; exact RowOutcome.noConfusion h
  · rw [hg] at h
    replace h : (if pyStrip idRaw = "" then
        (match rowGet row "name" "" with
          | none => RowOutcome.errored
          | some nameRaw =>
            if pyStrip nameRaw = "" then RowOutcome.skippedBlank
            else afterBlankCheck row (pyStrip idRaw))
        else afterBlankCheck row (pyStrip idRaw)) = RowOutcome.accepted r := h
    by_cases hid : pyStrip idRaw = ""
    · rw [if_pos hid] at h
      rcases hn : rowGet row "name" "" with _ | nameRaw <;> rw [hn] at h
      · exact RowOutcome.noConfusion h
      · replace h : (if pyStrip nameRaw = "" then RowOutcome.skippedBlank
            else afterBlankCheck row (pyStrip idRaw)) = RowOutcome.accepted r := h
        by_cases hnm : pyStrip nameRaw = ""
        · rw [if_pos hnm] at h; exact RowOutcome.noConfusion h
        · rw [if_neg hnm] at h
          unfold afterBlankCheck at h
          by_cases hp : clean_price (rowGet row "price" "0") ≤ 0 ∨
              10000 < clean_price (rowGet row "price" "0")
          · rw [if_pos hp] at h; exact RowOutcome.noConfusion h
          · rw [if_neg hp, if_pos hid] at h; exact RowOutcome.noConfusion h
    · rw [if_neg hid] at h
      unfold afterBlankCheck at h
      by_cases hp : clean_price (rowGet row "price" "0") ≤ 0 ∨
          10000 < clean_price (rowGet row "price" "0")
      · rw [if_pos hp] at h; exact RowOutcome.noConfusion h
      · rw [if_neg hp, if_neg hid] at h
        rcases h1 : rowGet row "host_id" "" with _ | hostIdV <;> rw [h1] at h
        · exact RowOutcome.noConfusion h
        rcases h2 : rowGet row "neighbourhood" "" with _ | nbV <;> rw [h2] at h
        · exact RowOutcome.noConfusion h
        rcases h3 : rowGet row "neighbourhood_cleansed" "" with _ | nbcV <;> rw [h3] at h
        · exact RowOutcome.noConfusion h
        rcases h4 : rowGet row "neighbourhood_group_cleansed" "" with _ | nbgV <;>
          rw [h4] at h
        · exact RowOutcome.noConfusion h
        rcases h5 : rowGet row "city" "Seattle" with _ | cityV <;> rw [h5] at h
        · exact RowOutcome.noConfusion h
        rcases h6 : rowGet row "state" "WA" with _ | stateV <;> rw [h6] at h
        · exact RowOutcome.noConfusion h
        rcases h7 : rowGet row "zipcode" "" with _ | zipV <;> rw [h7] at h
        · exact RowOutcome.noConfusion h
        injection h with h
        exact ⟨idRaw, hostIdV, nbV, nbcV, nbgV, cityV, stateV, zipV,
          rfl, hid, hp, h.symm⟩

theorem mem_processRows {rows : List RawRecord} {r : CleanedRecord}
    (h : r ∈ (processRows rows).1) :
    ∃ row ∈ rows, transformRow row = .accepted r := by
  induction rows with
  | nil => simp [processRows] at h
  | cons row rest ih =>
    simp only [processRows] at h
    rcases ht : transformRow row <;> rw [ht] at h
    case accepted r' =>
      rcases List.mem_cons.mp h with rfl | hmem
      · exact ⟨row, List.mem_cons_self _ _, ht⟩
      · obtain ⟨row', hm, ha⟩ := ih hmem
        exact ⟨row', List.mem_cons_of_mem _ hm, ha⟩
    all_goals {
      obtain ⟨row', hm, ha⟩ := ih h
      exact ⟨row', List.mem_cons_of_mem _ hm, ha⟩ }

theorem processRows_append (xs ys : List RawRecord) :
    processRows (xs ++ ys) =
      ((processRows xs).1 ++ (processRows ys).1,
        (processRows xs).2 + (processRows ys).2) := by
  induction xs with
  | nil => simp [processRows]
  | cons row rest ih =>
    simp only [List.cons_append, processRows, ih]
    rcases ht : transformRow row <;> simp [ht, ih, Prod.ext_iff]
    omega

theorem headD_mem {l : List α} {d : α} (h : 0 < l.length) : l.headD d ∈ l := by
  cases l with
  | nil => simp at h
  | cons a t => simp [List.headD]

/-! ## Claim theorems -/

/-- C1: every CleanedRecord in the pipeline's accepted output collection has
price strictly greater than 0, price at most 10000, and an id that is
non-empty after trimming; rows violating any of these conditions are never
appended to the output. -/
theorem c1_accepted_record_invariant (rows : List RawRecord) (r : CleanedRecord)
    (hmem : r ∈ (runPipeline rows).cleaned) :
    0 < r.price ∧ r.price ≤ 10000 ∧ r.id ≠ "" ∧ pyStrip r.id ≠ "" := by
  obtain ⟨row, _, hacc⟩ := mem_processRows hmem
  obtain ⟨idRaw, hV1, hV2, hV3, hV4, hV5, hV6, hV7, hg, hid, hp, hr⟩ :=
    transformRow_accepted_shape hacc
  subst hr
  rcases not_or.mp hp with ⟨hp1, hp2⟩
  refine ⟨?_, ?_, ?_, ?_⟩
  · exact not_le.mp hp1
  · exact not_lt.mp hp2
  · exact hid
  · show pyStrip (pyStrip idRaw) ≠ ""
    rw [pyStrip_idem]
    exact hid

set_option maxRecDepth 200000 in
/-- Witness for C1 at a concrete accepted row. -/
theorem c1_witness :
    0 < ((runPipeline [okRow]).cleaned.headD default).price ∧
    ((runPipeline [okRow]).cleaned.headD default).price ≤ 10000 ∧
    ((runPipeline [okRow]).cleaned.headD default).id ≠ "" ∧
    pyStrip ((runPipeline [okRow]).cleaned.headD default).id ≠ "" :=
  c1_accepted_record_invariant [okRow] _ (headD_mem (by
    have h : (runPipeline [okRow]).cleaned.length = 1 := by with_unfolding_all rfl
    omega))

/-- C7: for every accepted record, `price_per_guest` equals
`round(price / max(accommodates, 1), 2)`, and the divisor is at least 1
(never a division by zero), for every input row. -/
theorem c7_price_per_guest_safe (rows : List RawRecord) (r : CleanedRecord)
    (hmem : r ∈ (runPipeline rows).cleaned) :
    r.price_per_guest = round2 (r.price / ((max r.accommodates 1 : Int) : ℚ)) ∧
    (1 : Int) ≤ max r.accommodates 1 := by
  obtain ⟨row, _, hacc⟩ := mem_processRows hmem
  obtain ⟨idRaw, hV1, hV2, hV3, hV4, hV5, hV6, hV7, hg, hid, hp, hr⟩ :=
    transformRow_accepted_shape hacc
  subst hr
  refine ⟨?_, le_max_right _ _⟩
  show round2 (clean_price (rowGet row "price" "0") /
      ((max (clean_int (rowGet row "accommodates" "1")) 1 : Int) : ℚ)) =
    round2 (clean_price (rowGet row "price" "0") /
      ((max (clean_int (rowGet row "accommodates" "0")) 1 : Int) : ℚ))
  have hmax : max (clean_int (rowGet row "accommodates" "1")) 1 =
      max (clean_int (rowGet row "accommodates" "0")) 1 := by
    unfold rowGet
    cases row.lookup "accommodates" with
    | none => with_unfolding_all rfl
    | some v => rfl
  rw [hmax]

set_option maxRecDepth 200000 in
/-- Witness for C7 at a concrete accepted row. -/
theorem c7_witness :
    ((runPipeline [okRow]).cleaned.headD default).price_per_guest =
      round2 (((runPipeline [okRow]).cleaned.headD default).price /
        ((max ((runPipeline [okRow]).cleaned.headD default).accommodates 1 : Int) : ℚ)) ∧
    (1 : Int) ≤ max ((runPipeline [okRow]).cleaned.headD default).accommodates 1 :=
  c7_price_per_guest_safe [okRow] _ (headD_mem (by
    have h : (runPipeline [okRow]).cleaned.length = 1 := by with_unfolding_all rfl
    omega))

/-- C8: the transformation is deterministic and environment-independent:
two handler runs on the identical raw rows, under arbitrary (possibly
different) wall-clock readings, produce identical CleanedRecord sequences
and identical pipeline results; only the output filename can differ. -/
theorem c8_deterministic (rows : List RawRecord) (t1 t2 : String) :
    (runHandler rows t1).result.cleaned = (runHandler rows t2).result.cleaned ∧
    (runHandler rows t1).result = (runHandler rows t2).result :=
  ⟨rfl, rfl⟩

theorem length_splitOnP_go {p : α → Bool} :
    ∀ (t acc : List α), (List.splitOnP.go p t acc).length = t.countP p + 1 := by
  intro t
  induction t with
  | nil => intro acc; simp [List.splitOnP.go]
  | cons a t ih =>
    intro acc
    by_cases hp : p a
    · simp [List.splitOnP.go, hp, ih, List.countP_cons]
    · simp [List.splitOnP.go, hp, ih, List.countP_cons]

theorem length_splitOn [BEq α] (a : α) (l : List α) :
    (l.splitOn a).length = l.count a + 1 := by
  rw [List.splitOn, List.splitOnP, List.count]
  exact length_splitOnP_go l []

/-- C2 counterexample: the spec says the amenity counter returns the number
of NON-EMPTY trimmed items, which would give 1 for `"{TV,}"` and 2 for
`"{TV,,Wifi}"`; the code's `len([item.strip() for item in cleaned.split(',')])`
counts empty items too, giving 2 and 3. -/
theorem c2_counterexample :
    clean_amenities (some "\x7bTV,\x7d") = 2 ∧
    ¬(clean_amenities (some "\x7bTV,\x7d") = 1) ∧
    clean_amenities (some "\x7bTV,,Wifi\x7d") = 3 ∧
    ¬(clean_amenities (some "\x7bTV,,Wifi\x7d") = 2) := by
  refine ⟨by decide, by decide, by decide, by decide⟩

/-- C2 amended: the amenity counter strips enclosing brace characters,
splits the remainder on commas and returns the count of ALL items,
empty items included - that is, one more than the number of commas of the
brace-stripped remainder; empty input, `None`, and input whose
brace-stripped remainder is empty all yield 0. -/
theorem c2_amenities_amended (s : String) :
    clean_amenities none = 0 ∧
    clean_amenities (some "") = 0 ∧
    (s ≠ "" → stripBraceChars s.data = [] → clean_amenities (some s) = 0) ∧
    (s ≠ "" → stripBraceChars s.data ≠ [] →
      clean_amenities (some s) = (stripBraceChars s.data).count ',' + 1) := by
  refine ⟨rfl, rfl, ?_, ?_⟩
  · intro hne hempty
    simp [clean_amenities, hne, hempty]
  · intro hne hcl
    simp only [clean_amenities, hne, if_false, hcl]
    rw [List.length_map, length_splitOn]

/-- Witness for C2's amended claim at a concrete input. -/
theorem c2_witness :
    clean_amenities (some "\x7bTV,\x7d") =
      (stripBraceChars "\x7bTV,\x7d".data).count ',' + 1 :=
  (c2_amenities_amended "\x7bTV,\x7d").2.2.2 (by decide) (by decide)

set_option maxRecDepth 200000 in
/-- C4 counterexample: on the spec's 3-row input the single accepted
record has `price_per_guest = round(1200.5 / 4, 2) = round(300.125, 2)`,
which Python's round-half-to-even evaluates to 300.12, not the 300.13 the
claim states. -/
theorem c4_counterexample :
    (runPipeline c4rows).cleaned.map (fun r => r.price_per_guest) =
      [(30012 : ℚ) / 100] ∧
    (30012 : ℚ) / 100 ≠ (30013 : ℚ) / 100 := by
  constructor
  · with_unfolding_all rfl
  · norm_num

set_option maxRecDepth 200000 in
/-- C4 amended: given exactly the 3 described raw rows, the pipeline
accepts exactly row 1 and rejects rows 2 and 3 (without counting them as
errors), and row 1's output record has `price = 1200.5`,
`price_category = "luxury"`, `is_professional_host = 1`, and
`price_per_guest = 300.12` (round-half-to-even of 300.125). -/
theorem c4_end_to_end_amended :
    (runPipeline c4rows).raw_count = 3 ∧
    (runPipeline c4rows).clean_count = 1 ∧
    (runPipeline c4rows).error_count = 0 ∧
    (runPipeline c4rows).cleaned.map
        (fun r => (r.id, r.price, r.price_category, r.is_professional_host,
          r.price_per_guest)) =
      [("10", (2401 : ℚ) / 2, "luxury", 1, (7503 : ℚ) / 25)] := by
  refine ⟨?_, ?_, ?_, ?_⟩ <;> with_unfolding_all rfl

set_option maxRecDepth 200000 in
/-- C5 counterexample: the pipeline has no separately tallied
rejected-by-validation counter; the reported `removed_count` is
`raw_count - clean_count`, which an errored row also increments. On a
1-row input whose assembly raises (`host_id` is `None`), the error counter
is 1 and the removed/rejected counter is also 1, contradicting "a row
dropped by an exception ... never increments the rejected counter". -/
theorem c5_counterexample :
    transformRow errRow = RowOutcome.errored ∧
    (runPipeline [errRow]).error_count = 1 ∧
    (runPipeline [errRow]).removed_count = 1 ∧
    (runPipeline [errRow]).clean_count = 0 := by
  refine ⟨?_, ?_, ?_, ?_⟩ <;> with_unfolding_all rfl

/-- C5 amended: `error_count` is a true distinct counter - a
pre-validation-rejected row leaves it unchanged and an errored row
increments it by exactly 1 - but the rejected count is only reported as
`removed_count = raw_count - clean_count`, which both a rejected row and
an errored row increment by exactly 1. -/
theorem c5_counters_amended (rows : List RawRecord) (rrow erow : RawRecord)
    (h1 : isRejected (transformRow rrow) = true)
    (h2 : transformRow erow = .errored) :
    (runPipeline (rows ++ [rrow])).error_count = (runPipeline rows).error_count ∧
    (runPipeline (rows ++ [rrow])).removed_count =
      (runPipeline rows).removed_count + 1 ∧
    (runPipeline (rows ++ [erow])).error_count =
      (runPipeline rows).error_count + 1 ∧
    (runPipeline (rows ++ [erow])).removed_count =
      (runPipeline rows).removed_count + 1 := by
  have hrr : processRows [rrow] = ([], 0) := by
    rcases ht : transformRow rrow
    · rw [ht] at h1; simp [isRejected] at h1
    · simp [processRows, ht]
    · simp [processRows, ht]
    · simp [processRows, ht]
    · rw [ht] at h1; simp [isRejected] at h1
  have her : processRows [erow] = ([], 1) := by simp [processRows, h2]
  refine ⟨?_, ?_, ?_, ?_⟩ <;>
    simp only [runPipeline, processRows_append, hrr, her, List.append_nil,
      List.length_append, List.length_singleton] <;>
    push_cast <;> omega

/-- Witness for C5's amended claim at concrete rejected and errored rows. -/
theorem c5_witness :
    (runPipeline ([] ++ [rejRow])).error_count = (runPipeline []).error_count ∧
    (runPipeline ([] ++ [rejRow])).removed_count =
      (runPipeline []).removed_count + 1 ∧
    (runPipeline ([] ++ [errRow])).error_count =
      (runPipeline []).error_count + 1 ∧
    (runPipeline ([] ++ [errRow])).removed_count =
      (runPipeline []).removed_count + 1 :=
  c5_counters_amended [] rejRow errRow (by with_unfolding_all rfl)
    (by with_unfolding_all rfl)

/-- C9 (implicit): for each configured maximum length (100, 200, 1000) the
text cleaner's output never exceeds the maximum, reaches exactly the
maximum (ellipsis included) whenever the normalized text is longer than
the maximum, and the cleaner is idempotent: re-cleaning its own output
with the same maximum returns it unchanged. -/
theorem c9_clean_text_bounded_idem (s : String) (m : Int)
    (hm : m = 100 ∨ m = 200 ∨ m = 1000) :
    ((clean_text (some s) (some m)).length : Int) ≤ m ∧
    (((normalizeText s.data).length : Int) > m →
      ((clean_text (some s) (some m)).length : Int) = m) ∧
    clean_text (some (clean_text (some s) (some m))) (some m) =
      clean_text (some s) (some m) := by
  have hm3 : (3 : Int) ≤ m := by rcases hm with rfl | rfl | rfl <;> norm_num
  obtain ⟨h1, h2, h3⟩ := cleanTextList_spec s.data m hm3
  have hlen : (clean_text (some s) (some m)).length =
      (cleanTextList s.data (some m)).length := rfl
  refine ⟨?_, ?_, ?_⟩
  · rw [hlen]; exact h1
  · intro hgt; rw [hlen]; exact h2 hgt
  · show String.mk (cleanTextList (cleanTextList s.data (some m)) (some m)) =
      String.mk (cleanTextList s.data (some m))
    exact congrArg String.mk h3

/-- Witness for C9 at a concrete string and maximum. -/
theorem c9_witness :
    ((clean_text (some "a  b") (some 100)).length : Int) ≤ 100 ∧
    (((normalizeText "a  b".data).length : Int) > 100 →
      ((clean_text (some "a  b") (some 100)).length : Int) = 100) ∧
    clean_text (some (clean_text (some "a  b") (some 100))) (some 100) =
      clean_text (some "a  b") (some 100) :=
  c9_clean_text_bounded_idem "a  b" 100 (Or.inl rfl)

theorem pairwise_enumFrom {S : α → α → Prop} :
    ∀ (l : List α) (i : ℕ), l.Pairwise S →
      (l.enumFrom i).Pairwise (fun p q => S p.2 q.2) := by
  intro l
  induction l with
  | nil => intro i _; simp
  | cons a t ih =>
    intro i hp
    rw [List.enumFrom_cons]
    refine List.Pairwise.cons ?_ (ih (i + 1) hp.of_cons)
    intro q hq
    have hsnd : q.2 ∈ t := by
      have hmm := List.mem_map_of_mem Prod.snd hq
      rwa [List.enumFrom_map_snd] at hmm
    exact List.rel_of_pairwise_cons hp hsnd

theorem enumFrom_map_fst_succ :
    ∀ (s : List α) (i : ℕ),
      (s.enumFrom i).map (fun p => p.1 + 1) = List.range' (i + 1) s.length := by
  intro s
  induction s with
  | nil => intro i; rfl
  | cons a t ih =>
    intro i
    rw [List.enumFrom_cons, List.map_cons, ih (i + 1)]
    simp [List.length_cons, List.range'_succ]

theorem sortKeyLe_trans (a b c : CleanedRecord) :
    decide (sortKey a ≤ sortKey b) → decide (sortKey b ≤ sortKey c) →
      decide (sortKey a ≤ sortKey c) := by
  simp only [decide_eq_true_eq]
  omega

theorem sortKeyLe_total (a b : CleanedRecord) :
    decide (sortKey a ≤ sortKey b) || decide (sortKey b ≤ sortKey a) := by
  simp only [Bool.or_eq_true, decide_eq_true_eq]
  omega

theorem sortStage_pairwise (l : List CleanedRecord) :
    (sortStage l).Pairwise (fun a b => sortKey a ≤ sortKey b) := by
  have h := List.sorted_mergeSort sortKeyLe_trans sortKeyLe_total l
  exact h.imp (fun hab => by simpa using hab)

/-- C6: after the arm64 variant's post-processing stage, the collection is
ordered non-decreasing by the numeric value of `id` (a non-numeric id
sorting as 0), and the k-th record of the resulting order carries
`sequential_id = k` (1-based), i.e. the ids read 1, 2, ..., n. -/
theorem c6_postProcess_sorted_numbered (l : List CleanedRecord) :
    (postProcess l).Pairwise (fun a b => sortKey a.1 ≤ sortKey b.1) ∧
    (postProcess l).map Prod.snd = List.range' 1 l.length := by
  constructor
  · unfold postProcess assignSeq
    rw [List.pairwise_map]
    exact pairwise_enumFrom _ 0 (sortStage_pairwise l)
  · unfold postProcess assignSeq
    rw [List.map_map]
    have hc : (Prod.snd ∘ fun p : ℕ × CleanedRecord => (p.2, p.1 + 1)) =
        (fun p : ℕ × CleanedRecord => p.1 + 1) := rfl
    rw [hc, show (sortStage l).enum = (sortStage l).enumFrom 0 from rfl,
      enumFrom_map_fst_succ]
    simp [sortStage]

theorem pairwise_filter_of_rel {p : α → Bool} {R : α → α → Prop}
    (h : ∀ a b, p a = true → p b = true → R a b) :
    ∀ l : List α, (l.filter p).Pairwise R := by
  intro l
  induction l with
  | nil => simp
  | cons a t ih =>
    rw [List.filter_cons]
    by_cases hp : p a = true
    · rw [if_pos hp]
      refine List.Pairwise.cons ?_ ih
      intro b hb
      exact h a b hp (List.of_mem_filter hb)
    · rw [if_neg hp]
      exact ih

theorem sortStage_filter_key (l : List CleanedRecord) (k : ℕ) :
    (sortStage l).filter (fun r => sortKey r == k) =
      l.filter (fun r => sortKey r == k) := by
  have hpair : (l.filter (fun r => sortKey r == k)).Pairwise
      (fun a b => decide (sortKey a ≤ sortKey b) = true) :=
    pairwise_filter_of_rel (fun a b ha hb => by
      simp only [beq_iff_eq] at ha hb
      simp [ha, hb]) l
  have hsub : List.Sublist (l.filter (fun r => sortKey r == k)) (sortStage l) :=
    List.sublist_mergeSort sortKeyLe_trans sortKeyLe_total hpair
      (List.filter_sublist l)
  have hsub2 : List.Sublist (l.filter (fun r => sortKey r == k))
      ((sortStage l).filter (fun r => sortKey r == k)) := by
    have h2 := hsub.filter (fun r => sortKey r == k)
    have hself : (l.filter (fun r => sortKey r == k)).filter
        (fun r => sortKey r == k) = l.filter (fun r => sortKey r == k) :=
      List.filter_eq_self.mpr
        (fun a ha => List.of_mem_filter (p := fun r => sortKey r == k) ha)
    rwa [hself] at h2
  have hperm : List.Perm ((sortStage l).filter (fun r => sortKey r == k))
      (l.filter (fun r => sortKey r == k)) :=
    (List.mergeSort_perm l _).filter _
  exact (hsub2.eq_of_length hperm.length_eq.symm).symm

theorem filter_enumFrom_map_snd {p : α → Bool} :
    ∀ (l : List α) (i : ℕ),
      ((l.enumFrom i).filter (fun q => p q.2)).map Prod.snd = l.filter p := by
  intro l
  induction l with
  | nil => intro i; rfl
  | cons a t ih =>
    intro i
    rw [List.enumFrom_cons, List.filter_cons, List.filter_cons]
    by_cases hp : p a = true
    · simp only [hp, if_pos, List.map_cons]
      rw [ih (i + 1)]
    · simp only [hp]
      rw [if_neg (by simpa using hp), if_neg (by simpa using hp), ih (i + 1)]

theorem consecutiveSeq_cons {x : CleanedRecord × ℕ}
    {rest : List (CleanedRecord × ℕ)}
    (hhead : ∀ q, rest.head? = some q → q.2 = x.2 + 1)
    (hrest : consecutiveSeq rest = true) :
    consecutiveSeq (x :: rest) = true := by
  cases rest with
  | nil => rfl
  | cons q t =>
    have hq := hhead q rfl
    simp [consecutiveSeq, hq, hrest]

theorem filter_none_of_keys {k : ℕ} {t : List CleanedRecord} {i : ℕ}
    (h : ∀ y ∈ t, ¬(sortKey y = k)) :
    ((t.enumFrom i).map (fun p => (p.2, p.1 + 1))).filter
      (fun q => sortKey q.1 == k) = [] := by
  rw [List.filter_eq_nil_iff]
  intro a ha
  obtain ⟨p, hp, rfl⟩ := List.mem_map.mp ha
  have hmem : p.2 ∈ t := by
    have hmm := List.mem_map_of_mem Prod.snd hp
    rwa [List.enumFrom_map_snd] at hmm
  simp [h p.2 hmem]

theorem consec_head {k : ℕ} :
    ∀ (t : List CleanedRecord) (i : ℕ),
      t.Pairwise (fun a b => sortKey a ≤ sortKey b) →
      (∀ y ∈ t, k ≤ sortKey y) →
      ∀ q, (((t.enumFrom i).map (fun p => (p.2, p.1 + 1))).filter
          (fun q => sortKey q.1 == k)).head? = some q → q.2 = i + 1 := by
  intro t
  induction t with
  | nil => intro i _ _ q hq; simp at hq
  | cons a t ih =>
    intro i hp hge q hq
    rw [List.enumFrom_cons, List.map_cons, List.filter_cons] at hq
    by_cases hk : sortKey a = k
    · rw [if_pos (by simpa using hk)] at hq
      rw [List.head?_cons] at hq
      rw [← Option.some.inj hq]
    · rw [if_neg (by simpa using hk)] at hq
      have hgt : k < sortKey a :=
        lt_of_le_of_ne (hge a (List.mem_cons_self _ _)) (fun he => hk he.symm)
      have hnone : ∀ y ∈ t, ¬(sortKey y = k) := by
        intro y hy he
        have hay := List.rel_of_pairwise_cons hp hy
        omega
      rw [filter_none_of_keys hnone] at hq
      simp at hq

theorem consec_aux {k : ℕ} :
    ∀ (t : List CleanedRecord) (i : ℕ),
      t.Pairwise (fun a b => sortKey a ≤ sortKey b) →
      consecutiveSeq (((t.enumFrom i).map (fun p => (p.2, p.1 + 1))).filter
        (fun q => sortKey q.1 == k)) = true := by
  intro t
  induction t with
  | nil => intro i _; rfl
  | cons a t ih =>
    intro i hp
    rw [List.enumFrom_cons, List.map_cons, List.filter_cons]
    by_cases hk : sortKey a = k
    · rw [if_pos (by simpa using hk)]
      apply consecutiveSeq_cons
      · intro q hq
        exact consec_head t (i + 1) hp.of_cons
          (fun y hy => hk ▸ List.rel_of_pairwise_cons hp hy) q hq
      · exact ih (i + 1) hp.of_cons
    · rw [if_neg (by simpa using hk)]
      exact ih (i + 1) hp.of_cons

/-- C10 (implicit): the post-processing sort is stable - records whose ids
map to the same numeric key keep their relative accepted order (the
filtered sorted output equals the filtered input), and within each key
class the assigned `sequential_id` values are consecutive. -/
theorem c10_postProcess_stable (l : List CleanedRecord) (k : ℕ) :
    ((postProcess l).filter (fun q => sortKey q.1 == k)).map Prod.fst =
      l.filter (fun r => sortKey r == k) ∧
    consecutiveSeq ((postProcess l).filter (fun q => sortKey q.1 == k)) = true := by
  constructor
  · unfold postProcess assignSeq
    rw [List.filter_map, List.map_map]
    have h2 : (((sortStage l).enum).filter
        ((fun q : CleanedRecord × ℕ => sortKey q.1 == k) ∘
          fun p : ℕ × CleanedRecord => (p.2, p.1 + 1))).map
        (Prod.fst ∘ fun p : ℕ × CleanedRecord => (p.2, p.1 + 1)) =
        (((sortStage l).enumFrom 0).filter
          (fun q : ℕ × CleanedRecord =>
            (fun r => sortKey r == k) q.2)).map Prod.snd := rfl
    rw [h2, filter_enumFrom_map_snd (p := fun r => sortKey r == k) (sortStage l) 0,
      sortStage_filter_key]
  · exact consec_aux (sortStage l) 0 (sortStage_pairwise l)
